import Mathlib

/-!
Verification development for the branch-based planner of tf-controller.

The repository ships two relevant artifacts: the source-resolution helpers in
internal/server/polling/terraform.go (embedded below as getSource), and the
test file pinning the observable behaviour of the reconcile entry point
(Test_poll_empty, Test_poll_reconcile_objects).  The reconcile algorithm
itself is not part of the sources at hand, so it is modelled from the
specification (desired-state derivation, actual-state listing by the owner
marker with the pr-id-label and name-suffix association of its section 4.2,
diff, and create/update/delete application), with the field values
pinned by the in-repo tests (naming scheme, forced fields, label inheritance).

Objects are embedded as records of the fields this subsystem reads or writes;
all remaining spec fields are modelled by an opaque pass-through component
that derivation copies verbatim.  The object store is a pair of lists keyed
by (namespace, name).
-/

namespace Polling

/-- Labels of a Kubernetes object, as an association list. -/
abbrev Labels := List (String × String)

/-- Label key marking objects created by the branch-based planner
(infra.weave.works/branch-based-planner in the tests). -/
def bbpLabel : String := "infra.weave.works/branch-based-planner"

/-- Label key holding the pull-request number of a derived object
(infra.weave.works/pr-id in the tests). -/
def prIdLabel : String := "infra.weave.works/pr-id"

/-- Lookup of a label value by key. -/
def lookupLabel : Labels → String → Option String
  | [], _ => none
  | (k, v) :: ls, q => if k = q then some v else lookupLabel ls q

/-- Map-style assignment of a label: replaces the first binding of the key,
or appends a new binding. -/
def setLabel : Labels → String → String → Labels
  | [], k, v => [(k, v)]
  | (k', v') :: ls, k, v =>
    if k' = k then (k, v) :: ls else (k', v') :: setLabel ls k v

/-- Whether a label set carries the owner marker with value "true". -/
def hasMarker (ls : Labels) : Bool :=
  decide (lookupLabel ls bbpLabel = some "true")

/-- A stored object: Kubernetes metadata (name, namespace, labels) plus a
kind-specific spec.  The namespace field is called nspace because namespace
is a reserved word in Lean. -/
structure KObj (σ : Type) where
  name : String
  nspace : String
  labels : Labels
  spec : σ
  deriving DecidableEq

/-- The (namespace, name) identity of an object. -/
def keyOf {σ : Type} (o : KObj σ) : String × String := (o.nspace, o.name)

/-- Lookup of an object by its (namespace, name) key. -/
def getByKey {σ : Type} : List (KObj σ) → (String × String) → Option (KObj σ)
  | [], _ => none
  | o :: l, k => if keyOf o = k then some o else getByKey l k

/-- Spec.SourceRef of a Terraform object (CrossNamespaceSourceReference). -/
structure CrossNamespaceSourceReference where
  kind : String
  name : String
  nspace : String
  deriving DecidableEq

/-- Spec.WriteOutputsToSecret of a Terraform object. -/
structure WriteOutputsToSecretSpec where
  name : String
  deriving DecidableEq

/-- Spec of a Terraform (planning) object: the fields the branch-based
planner reads or overrides, plus an opaque pass-through component standing
for every other spec field (copied verbatim by derivation). -/
structure TerraformSpec where
  sourceRef : CrossNamespaceSourceReference
  planOnly : Bool
  storeReadablePlan : String
  writeOutputsToSecret : Option WriteOutputsToSecretSpec
  passThrough : String
  deriving DecidableEq

/-- Spec.Reference of a GitRepository (the tracked branch). -/
structure GitRepositoryRef where
  branch : String
  deriving DecidableEq

/-- Spec of a GitRepository source object. -/
structure GitRepositorySpec where
  url : String
  reference : GitRepositoryRef
  passThrough : String
  deriving DecidableEq

/-- A Terraform planning object. -/
abbrev Terraform := KObj TerraformSpec

/-- A GitRepository source object. -/
abbrev GitRepository := KObj GitRepositorySpec

/-- Identity of a code-hosting repository (provider.Repository). -/
structure Repository where
  project : String
  org : String
  name : String
  deriving DecidableEq

/-- An open pull request as supplied by the provider (provider.PullRequest). -/
structure PullRequest where
  repository : Repository
  number : Nat
  baseBranch : String
  headBranch : String
  deriving DecidableEq

/-- The branch id of a pull request: headBranch-number. -/
def branchId (pr : PullRequest) : String :=
  pr.headBranch ++ "-" ++ toString pr.number

/-- The object store visible to the subsystem: Terraform objects and
GitRepository objects. -/
structure Store where
  terraforms : List Terraform
  gitRepos : List GitRepository
  deriving DecidableEq

/-- Well-formedness of a store: object keys are unique per kind. -/
def Store.wf (s : Store) : Prop :=
  (s.terraforms.map keyOf).Nodup ∧ (s.gitRepos.map keyOf).Nodup

/-- A store mutation issued by the reconciler for one object kind. -/
inductive Op (σ : Type) where
  | create (o : KObj σ)
  | update (o : KObj σ)
  | delete (k : String × String)
  deriving DecidableEq

/-- Modelled from the spec: labels of a derived object are the base object's
labels plus the owner marker and the pr-id label (section 3 of the spec; the
base object is the template for the planning object and the original source
for the derived source object, per the fixtures of
Test_poll_reconcile_objects). -/
def derivedLabels (base : Labels) (pr : PullRequest) : Labels :=
  setLabel (setLabel base bbpLabel "true") prIdLabel (toString pr.number)

/-- Modelled from the spec: the derived source object for one pull request,
named by suffixing the original source name with the branch id, placed in the
template's namespace, with the tracked branch replaced by the request's head
branch and every other spec field copied verbatim. -/
def derivedSource (tmpl : Terraform) (src : GitRepository) (pr : PullRequest) :
    GitRepository :=
  { name := src.name ++ "-" ++ branchId pr
    nspace := tmpl.nspace
    labels := derivedLabels src.labels pr
    spec := { src.spec with reference := { branch := pr.headBranch } } }

/-- Modelled from the spec: the derived planning object for one pull request,
named by suffixing the template name with the branch id, with sourceRef
pointing at the derived source in the template's namespace, planOnly forced
true, storeReadablePlan forced "human", writeOutputsToSecret.name (when
present) suffixed with the branch id, and every other spec field copied
verbatim from the template. -/
def derivedTerraform (tmpl : Terraform) (src : GitRepository) (pr : PullRequest) :
    Terraform :=
  { name := tmpl.name ++ "-" ++ branchId pr
    nspace := tmpl.nspace
    labels := derivedLabels tmpl.labels pr
    spec := { tmpl.spec with
      sourceRef := { kind := tmpl.spec.sourceRef.kind
                     name := src.name ++ "-" ++ branchId pr
                     nspace := tmpl.nspace }
      planOnly := true
      storeReadablePlan := "human"
      writeOutputsToSecret := tmpl.spec.writeOutputsToSecret.map
        (fun w => { name := w.name ++ "-" ++ branchId pr }) } }

/-- Modelled from the spec: the filter step keeps a pull request only when
its base branch equals the branch tracked by the source object. -/
def keptPRs (src : GitRepository) (prs : List PullRequest) : List PullRequest :=
  prs.filter (fun pr => decide (pr.baseBranch = src.spec.reference.branch))

/-- Modelled from the spec: the desired derived planning objects. -/
def desiredTerraforms (tmpl : Terraform) (src : GitRepository)
    (prs : List PullRequest) : List Terraform :=
  (keptPRs src prs).map (derivedTerraform tmpl src)

/-- Modelled from the spec: the desired derived source objects. -/
def desiredSources (tmpl : Terraform) (src : GitRepository)
    (prs : List PullRequest) : List GitRepository :=
  (keptPRs src prs).map (derivedSource tmpl src)

/-- Replacement of the object stored at the key of d with d itself. -/
def replaceAt {σ : Type} : List (KObj σ) → KObj σ → List (KObj σ)
  | [], _ => []
  | o :: l, d => (if keyOf o = keyOf d then d else o) :: replaceAt l d

/-- Modelled from the spec: application of one desired object against the
store.  An absent key is created; a present owned (marker-carrying) object is
updated when it differs and left alone when equal; a present object without
the owner marker makes the create fail (already-exists error, reported by
key) with no mutation. -/
def syncOne {σ : Type} [DecidableEq σ] (st : List (KObj σ)) (d : KObj σ) :
    List (KObj σ) × List (Op σ) × List (String × String) :=
  match getByKey st (keyOf d) with
  | none => (st ++ [d], [Op.create d], [])
  | some cur =>
    if hasMarker cur.labels then
      if cur = d then (st, [], [])
      else (replaceAt st d, [Op.update d], [])
    else (st, [], [keyOf d])

/-- Modelled from the spec: sequential application of the desired objects,
collecting mutations and per-key errors independently (a failure on one key
does not prevent processing of the others). -/
def syncAll {σ : Type} [DecidableEq σ] :
    List (KObj σ) → List (KObj σ) →
    List (KObj σ) × List (Op σ) × List (String × String)
  | st, [] => (st, [], [])
  | st, d :: ds =>
    ((syncAll (syncOne st d).1 ds).1,
     (syncOne st d).2.1 ++ (syncAll (syncOne st d).1 ds).2.1,
     (syncOne st d).2.2 ++ (syncAll (syncOne st d).1 ds).2.2)

/-- Whether an object's name extends a base name by a dash-separated
suffix: the name-suffix half of the owned-object association of section 4.2
of the spec, scoped by the listing identity's own base name (the template
name for planning objects, the source name for source objects). -/
def nameExtendsBase {σ : Type} (base : String) (o : KObj σ) : Bool :=
  decide (o.name.data.take (base.data.length + 1) = base.data ++ ['-'])

/-- Modelled from the spec: an object counts as an owned orphan to be
deleted when it lives in the template's namespace, carries the owner
marker, is associated to a branch id via its pr-id label and its
dash-suffixed name over the listing base name (section 4.2: the listing
associates each owned object to a branch id via its pr-id label and name
suffix, and objects not created by this subsystem are excluded), and its
key is no longer desired. -/
def isDoomed {σ : Type} (ns base : String) (keep : List (String × String))
    (o : KObj σ) : Bool :=
  decide (o.nspace = ns ∧ hasMarker o.labels = true ∧
    (lookupLabel o.labels prIdLabel).isSome = true ∧
    nameExtendsBase base o = true ∧ keyOf o ∉ keep)

/-- Modelled from the spec: the orphan-cleanup phase removes every owned
object of the template's namespace whose key is no longer desired, and
reports one delete mutation per removed object. -/
def deletePhase {σ : Type} (ns base : String) (keep : List (String × String))
    (st : List (KObj σ)) : List (KObj σ) × List (Op σ) :=
  (st.filter (fun o => !(isDoomed ns base keep o)),
   (st.filter (isDoomed ns base keep)).map (fun o => Op.delete (keyOf o)))

/-- Result of one reconcile call: the new store, the mutations issued per
object kind, and the keys of failed creates. -/
structure ReconcileResult where
  store : Store
  tfMuts : List (Op TerraformSpec)
  srcMuts : List (Op GitRepositorySpec)
  errors : List (String × String)
  deriving DecidableEq

/-- Modelled from the spec: one reconcile pass.  It derives the desired
derived objects from (template, source, pull requests), applies sources
before planning objects (so a reference target exists before its referrer),
and finally deletes owned orphans of both kinds (planning objects before
sources). -/
def reconcile (tmpl : Terraform) (src : GitRepository) (prs : List PullRequest)
    (store : Store) : ReconcileResult :=
  { store :=
      { terraforms :=
          (deletePhase tmpl.nspace tmpl.name ((desiredTerraforms tmpl src prs).map keyOf)
            (syncAll store.terraforms (desiredTerraforms tmpl src prs)).1).1
        gitRepos :=
          (deletePhase tmpl.nspace src.name ((desiredSources tmpl src prs).map keyOf)
            (syncAll store.gitRepos (desiredSources tmpl src prs)).1).1 }
    tfMuts :=
      (syncAll store.terraforms (desiredTerraforms tmpl src prs)).2.1 ++
        (deletePhase tmpl.nspace tmpl.name ((desiredTerraforms tmpl src prs).map keyOf)
          (syncAll store.terraforms (desiredTerraforms tmpl src prs)).1).2
    srcMuts :=
      (syncAll store.gitRepos (desiredSources tmpl src prs)).2.1 ++
        (deletePhase tmpl.nspace src.name ((desiredSources tmpl src prs).map keyOf)
          (syncAll store.gitRepos (desiredSources tmpl src prs)).1).2
    errors :=
      (syncAll store.gitRepos (desiredSources tmpl src prs)).2.2 ++
        (syncAll store.terraforms (desiredTerraforms tmpl src prs)).2.2 }

/-- The only source kind the branch-based planner supports
(sourcev1b2.GitRepositoryKind). -/
def GitRepositoryKind : String := "GitRepository"

/-- Errors of getSource, mirroring internal/server/polling/terraform.go. -/
inductive SourceError where
  | unsupportedKind (kind : String)
  | accessDenied (msg : String)
  | notFound
  deriving DecidableEq

/-- Whether a getSource error is the cross-namespace access denial. -/
def SourceError.isAccessDenied : SourceError → Bool
  | .accessDenied _ => true
  | _ => false

/-- The object key getSource resolves, from terraform.go: the namespace
defaults to the Terraform object's own namespace and is overridden by
Spec.SourceRef.Namespace when that is nonempty. -/
def sourceKey (tf : Terraform) : String × String :=
  if tf.spec.sourceRef.nspace ≠ "" then
    (tf.spec.sourceRef.nspace, tf.spec.sourceRef.name)
  else
    (tf.nspace, tf.spec.sourceRef.name)

/-- The access-denied message of terraform.go. -/
def accessDeniedMsg (tf : Terraform) : String :=
  "cannot access " ++ tf.spec.sourceRef.kind ++ "/" ++ (sourceKey tf).1 ++
    "/" ++ (sourceKey tf).2 ++ ", cross-namespace references have been disabled"

/-- Embedding of getSource from internal/server/polling/terraform.go: reject
unsupported source kinds, then reject cross-namespace references when the
policy forbids them, then fetch the GitRepository by key. -/
def getSource (noCrossNamespaceRefs : Bool) (store : Store) (tf : Terraform) :
    Except SourceError GitRepository :=
  if tf.spec.sourceRef.kind ≠ GitRepositoryKind then
    .error (.unsupportedKind tf.spec.sourceRef.kind)
  else if noCrossNamespaceRefs ∧ (sourceKey tf).1 ≠ tf.nspace then
    .error (.accessDenied (accessDeniedMsg tf))
  else
    match getByKey store.gitRepos (sourceKey tf) with
    | some o => .ok o
    | none => .error .notFound

/-- Modelled from the spec: the poll pass for one template resolves the
source object first and reconciles only on success, so a source-resolution
failure leaves the store untouched with no mutations. -/
def pollPass (noCrossNamespaceRefs : Bool) (tf : Terraform)
    (prs : List PullRequest) (store : Store) :
    Store × List (Op TerraformSpec) × List (Op GitRepositorySpec) ×
      Option SourceError :=
  match getSource noCrossNamespaceRefs store tf with
  | .error e => (store, [], [], some e)
  | .ok src =>
    ((reconcile tf src prs store).store, (reconcile tf src prs store).tfMuts,
     (reconcile tf src prs store).srcMuts, none)

end Polling

namespace Polling

/-- Setting a label makes it retrievable. -/
theorem lookupLabel_setLabel_self (ls : Labels) (k v : String) :
    lookupLabel (setLabel ls k v) k = some v := by
  induction ls with
  | nil => simp [setLabel, lookupLabel]
  | cons p ls ih =>
    obtain ⟨k', v'⟩ := p
    by_cases h : k' = k
    · simp [setLabel, h, lookupLabel]
    · simp [setLabel, h, lookupLabel, ih]

/-- Setting a label leaves other keys unchanged. -/
theorem lookupLabel_setLabel_ne (ls : Labels) {k q : String} (v : String)
    (h : q ≠ k) : lookupLabel (setLabel ls k v) q = lookupLabel ls q := by
  induction ls with
  | nil => simp [setLabel, lookupLabel, Ne.symm h]
  | cons p ls ih =>
    obtain ⟨k', v'⟩ := p
    by_cases hk : k' = k
    · subst hk
      simp [setLabel, lookupLabel, Ne.symm h]
    · simp [setLabel, hk, lookupLabel, ih]

/-- Every derived label set carries the owner marker. -/
theorem hasMarker_derivedLabels (base : Labels) (pr : PullRequest) :
    hasMarker (derivedLabels base pr) = true := by
  have hne : bbpLabel ≠ prIdLabel := by decide
  simp [hasMarker, derivedLabels, lookupLabel_setLabel_ne _ _ hne,
    lookupLabel_setLabel_self]

/-- Appending string data distributes over append. -/
theorem string_data_append (a b : String) : (a ++ b).data = a.data ++ b.data :=
  rfl

/-- String append cancels on the left. -/
theorem string_append_left_cancel {a b c : String} (h : a ++ b = a ++ c) :
    b = c := by
  have hd : a.data ++ b.data = a.data ++ c.data := by
    have h2 := congrArg String.data h
    simpa [string_data_append] using h2
  have hbc : b.data = c.data := List.append_cancel_left hd
  cases b; cases c; exact congrArg String.mk hbc

/-- A string never equals itself extended by a dash and a suffix. -/
theorem string_ne_dash_suffix (a s : String) : a ≠ a ++ "-" ++ s := by
  intro h
  have h2 := congrArg (fun x => x.data.length) h
  have hdash : ("-" : String).data.length = 1 := rfl
  simp only [string_data_append, List.length_append, hdash] at h2
  omega

/-- An object named by a base name, a dash and a suffix extends the base. -/
theorem nameExtendsBase_of_append {σ : Type} (o : KObj σ) (base rest : String)
    (h : o.name = base ++ "-" ++ rest) : nameExtendsBase base o = true := by
  have hdash : ("-" : String).data = ['-'] := rfl
  have hdata : o.name.data = (base.data ++ ['-']) ++ rest.data := by
    rw [h]
    simp [string_data_append, hdash]
  simp only [nameExtendsBase, decide_eq_true_eq]
  rw [hdata]
  have hlen : base.data.length + 1 = (base.data ++ ['-']).length := by simp
  rw [hlen]
  exact List.take_left _ _

/-- An object named exactly by the base name does not extend it. -/
theorem nameExtendsBase_self {σ : Type} (base : String) (o : KObj σ)
    (h : o.name = base) : nameExtendsBase base o = false := by
  simp only [nameExtendsBase, decide_eq_false_iff_not]
  intro hc
  rw [h] at hc
  have hlen := congrArg List.length hc
  simp [List.length_take] at hlen

section StoreLemmas

variable {σ : Type}

/-- Lookup over an appended list tries the left list first. -/
theorem getByKey_append (l₁ l₂ : List (KObj σ)) (k : String × String) :
    getByKey (l₁ ++ l₂) k =
      match getByKey l₁ k with
      | some o => some o
      | none => getByKey l₂ k := by
  induction l₁ with
  | nil => simp [getByKey]
  | cons o l ih =>
    by_cases h : keyOf o = k <;> simp [getByKey, h, ih]

/-- Lookup fails exactly when no element has the key. -/
theorem getByKey_eq_none {l : List (KObj σ)} {k : String × String} :
    getByKey l k = none ↔ ∀ o ∈ l, keyOf o ≠ k := by
  induction l with
  | nil => simp [getByKey]
  | cons a t ih =>
    by_cases h : keyOf a = k <;> simp [getByKey, h, ih]

/-- A successful lookup returns a member with the requested key. -/
theorem getByKey_mem {l : List (KObj σ)} {k : String × String} {o : KObj σ}
    (h : getByKey l k = some o) : o ∈ l ∧ keyOf o = k := by
  induction l with
  | nil => simp [getByKey] at h
  | cons a t ih =>
    by_cases ha : keyOf a = k
    · simp [getByKey, ha] at h
      subst h
      exact ⟨List.mem_cons_self _ _, ha⟩
    · simp [getByKey, ha] at h
      obtain ⟨h1, h2⟩ := ih h
      exact ⟨List.mem_cons_of_mem _ h1, h2⟩

/-- With unique keys, looking up a member's key returns that member. -/
theorem getByKey_self {l : List (KObj σ)} (hnd : (l.map keyOf).Nodup)
    {o : KObj σ} (ho : o ∈ l) : getByKey l (keyOf o) = some o := by
  induction l with
  | nil => cases ho
  | cons a t ih =>
    simp only [List.map_cons, List.nodup_cons] at hnd
    rcases List.mem_cons.mp ho with rfl | hot
    · simp [getByKey]
    · have hne : keyOf a ≠ keyOf o := by
        intro h
        exact hnd.1 (h ▸ List.mem_map_of_mem keyOf hot)
      simp [getByKey, hne, ih hnd.2 hot]

/-- Replacing at a key preserves the key sequence. -/
theorem keyOf_replaceAt (st : List (KObj σ)) (d : KObj σ) :
    (replaceAt st d).map keyOf = st.map keyOf := by
  induction st with
  | nil => rfl
  | cons a t ih =>
    by_cases h : keyOf a = keyOf d
    · rw [replaceAt, if_pos h, List.map_cons, ih, ← h]; rfl
    · rw [replaceAt, if_neg h, List.map_cons, ih]; rfl

/-- Lookup at the replaced key yields the replacement when occupied. -/
theorem getByKey_replaceAt_key (st : List (KObj σ)) (d : KObj σ) :
    getByKey (replaceAt st d) (keyOf d) =
      (getByKey st (keyOf d)).map (fun _ => d) := by
  induction st with
  | nil => simp [replaceAt, getByKey]
  | cons a t ih =>
    by_cases h : keyOf a = keyOf d
    · simp [replaceAt, getByKey, h]
    · simp [replaceAt, getByKey, h, ih]

/-- Lookup at other keys is unchanged by replacement. -/
theorem getByKey_replaceAt_ne (st : List (KObj σ)) (d : KObj σ)
    {k : String × String} (h : k ≠ keyOf d) :
    getByKey (replaceAt st d) k = getByKey st k := by
  induction st with
  | nil => rfl
  | cons a t ih =>
    by_cases ha : keyOf a = keyOf d
    · have h1 : ¬keyOf d = k := fun hc => h hc.symm
      have h2 : ¬keyOf a = k := fun hc => h1 (ha ▸ hc)
      simp [replaceAt, getByKey, ha, h1, h2, ih]
    · simp [replaceAt, getByKey, ha, ih]

/-- Members with a different key survive replacement unchanged. -/
theorem mem_replaceAt_of_ne {st : List (KObj σ)} {d o : KObj σ} (ho : o ∈ st)
    (h : keyOf o ≠ keyOf d) : o ∈ replaceAt st d := by
  induction st with
  | nil => cases ho
  | cons a t ih =>
    rcases List.mem_cons.mp ho with rfl | hot
    · simp [replaceAt, if_neg h]
    · simp only [replaceAt]
      exact List.mem_cons_of_mem _ (ih hot)

/-- All members of a replaced list come from the original or equal the
replacement. -/
theorem mem_replaceAt {st : List (KObj σ)} {d o : KObj σ}
    (ho : o ∈ replaceAt st d) : o ∈ st ∨ o = d := by
  induction st with
  | nil => cases ho
  | cons a t ih =>
    simp only [replaceAt] at ho
    rcases List.mem_cons.mp ho with h | hot
    · by_cases hk : keyOf a = keyOf d
      · rw [if_pos hk] at h
        exact Or.inr h
      · rw [if_neg hk] at h
        exact Or.inl (h ▸ List.mem_cons_self _ _)
    · rcases ih hot with h | h
      · exact Or.inl (List.mem_cons_of_mem _ h)
      · exact Or.inr h

/-- Lookup in a filtered list, given unique keys: the occupant survives
exactly when it passes the filter. -/
theorem getByKey_filter (p : KObj σ → Bool) {l : List (KObj σ)}
    (hnd : (l.map keyOf).Nodup) (k : String × String) :
    getByKey (l.filter p) k =
      match getByKey l k with
      | some o => if p o then some o else none
      | none => none := by
  induction l with
  | nil => simp [getByKey]
  | cons a t ih =>
    simp only [List.map_cons, List.nodup_cons] at hnd
    by_cases hk : keyOf a = k
    · have ht : getByKey t k = none := by
        rw [getByKey_eq_none]
        intro o ho he
        exact hnd.1 (hk ▸ he ▸ List.mem_map_of_mem keyOf ho)
      by_cases hp : p a
      · simp [List.filter_cons, hp, getByKey, hk]
      · simp [List.filter_cons, hp, getByKey, hk, ih hnd.2, ht]
    · by_cases hp : p a <;> simp [List.filter_cons, hp, getByKey, hk, ih hnd.2]

/-- A filter that an element uniquely satisfies yields that singleton. -/
theorem filter_eq_single (p : KObj σ → Bool) {l : List (KObj σ)} {x : KObj σ}
    (hnd : (l.map keyOf).Nodup) (hx : x ∈ l) (hpx : p x = true)
    (huniq : ∀ y ∈ l, p y = true → y = x) : l.filter p = [x] := by
  induction l with
  | nil => cases hx
  | cons a t ih =>
    simp only [List.map_cons, List.nodup_cons] at hnd
    rcases List.mem_cons.mp hx with rfl | hxt
    · have ht : t.filter p = [] := by
        rw [List.filter_eq_nil_iff]
        intro y hy hpy
        have hyx := huniq y (List.mem_cons_of_mem _ hy) hpy
        exact hnd.1 (hyx ▸ List.mem_map_of_mem keyOf hy)
      simp [List.filter_cons, hpx, ht]
    · have hpa : p a = false := by
        by_contra hc
        have : p a = true := by
          cases h : p a
          · exact absurd h hc
          · rfl
        have hax := huniq a (List.mem_cons_self _ _) this
        exact hnd.1 (hax ▸ List.mem_map_of_mem keyOf hxt)
      have ih2 := ih hnd.2 hxt
        (fun y hy hpy => huniq y (List.mem_cons_of_mem _ hy) hpy)
      simp [List.filter_cons, hpa, ih2]

end StoreLemmas

end Polling

namespace Polling

section SyncLemmas

variable {σ : Type} [DecidableEq σ]

/-- Applying one desired object preserves key uniqueness. -/
theorem syncOne_keys_nodup {st : List (KObj σ)} (hnd : (st.map keyOf).Nodup)
    (d : KObj σ) : ((syncOne st d).1.map keyOf).Nodup := by
  cases hg : getByKey st (keyOf d) with
  | none =>
    have hk : keyOf d ∉ st.map keyOf := by
      rw [getByKey_eq_none] at hg
      simp only [List.mem_map, not_exists]
      rintro o ⟨ho, hko⟩
      exact hg o ho hko
    simp only [syncOne, hg, List.map_append, List.map_cons, List.map_nil]
    exact List.Nodup.append hnd (List.nodup_singleton _)
      (fun a ha hb => by
        rcases List.mem_singleton.mp hb with rfl
        exact hk ha)
  | some cur =>
    by_cases hm : hasMarker cur.labels
    · by_cases he : cur = d
      · subst he
        simpa [syncOne, hg, hm] using hnd
      · simpa [syncOne, hg, hm, he, keyOf_replaceAt] using hnd
    · simpa [syncOne, hg, hm] using hnd

/-- Applying one desired object does not change lookups at other keys. -/
theorem syncOne_getByKey_ne {st : List (KObj σ)} {d : KObj σ}
    {k : String × String} (h : keyOf d ≠ k) :
    getByKey (syncOne st d).1 k = getByKey st k := by
  cases hg : getByKey st (keyOf d) with
  | none =>
    simp only [syncOne, hg]
    rw [getByKey_append]
    cases hk : getByKey st k with
    | some o => simp
    | none => simp [getByKey, h]
  | some cur =>
    by_cases hm : hasMarker cur.labels
    · by_cases he : cur = d
      · subst he
        simp [syncOne, hg, hm]
      · simp only [syncOne, hg, if_pos hm, if_neg he]
        exact getByKey_replaceAt_ne st d (fun hc => h hc.symm)
    · simp [syncOne, hg, hm]

/-- When applying one desired object reports no error, its key now holds it. -/
theorem syncOne_lookup_of_errs_nil {st : List (KObj σ)} {d : KObj σ}
    (he : (syncOne st d).2.2 = []) :
    getByKey (syncOne st d).1 (keyOf d) = some d := by
  cases hg : getByKey st (keyOf d) with
  | none =>
    simp only [syncOne, hg]
    rw [getByKey_append, hg]
    simp [getByKey]
  | some cur =>
    by_cases hm : hasMarker cur.labels
    · by_cases heq : cur = d
      · subst heq
        simp [syncOne, hg, hm]
      · simp only [syncOne, hg, if_pos hm, if_neg heq]
        rw [getByKey_replaceAt_key, hg]
        rfl
    · exfalso
      simp [syncOne, hg, hm] at he

/-- A desired object already stored as such is left alone. -/
theorem syncOne_noop {st : List (KObj σ)} {d : KObj σ}
    (hm : hasMarker d.labels = true) (hg : getByKey st (keyOf d) = some d) :
    syncOne st d = (st, [], []) := by
  simp [syncOne, hg, hm]

/-- Objects without the owner marker survive one application step. -/
theorem syncOne_mem_unmarked {st : List (KObj σ)} (hnd : (st.map keyOf).Nodup)
    {o : KObj σ} (ho : o ∈ st) (hu : hasMarker o.labels = false)
    (d : KObj σ) : o ∈ (syncOne st d).1 := by
  cases hg : getByKey st (keyOf d) with
  | none =>
    simp only [syncOne, hg]
    exact List.mem_append_left _ ho
  | some cur =>
    by_cases hm : hasMarker cur.labels
    · by_cases he : cur = d
      · subst he
        simpa [syncOne, hg, hm] using ho
      · simp only [syncOne, hg, if_pos hm, if_neg he]
        have hko : keyOf o ≠ keyOf d := by
          intro hk
          have hself := getByKey_self hnd ho
          rw [hk, hg] at hself
          cases hself
          rw [hm] at hu
          cases hu
        exact mem_replaceAt_of_ne ho hko
    · simpa [syncOne, hg, hm] using ho

/-- Everything stored after one application step was stored before or is the
applied object. -/
theorem syncOne_post_mem {st : List (KObj σ)} {d o : KObj σ}
    (ho : o ∈ (syncOne st d).1) : o ∈ st ∨ o = d := by
  cases hg : getByKey st (keyOf d) with
  | none =>
    rw [syncOne, hg] at ho
    rcases List.mem_append.mp ho with h | h
    · exact Or.inl h
    · exact Or.inr (List.mem_singleton.mp h)
  | some cur =>
    by_cases hm : hasMarker cur.labels
    · by_cases he : cur = d
      · rw [syncOne, hg] at ho
        simp only [if_pos hm, if_pos he] at ho
        exact Or.inl ho
      · rw [syncOne, hg] at ho
        simp only [if_pos hm, if_neg he] at ho
        exact mem_replaceAt ho
    · rw [syncOne, hg] at ho
      simp only [if_neg hm] at ho
      exact Or.inl ho

/-- Sequential application preserves key uniqueness. -/
theorem syncAll_keys_nodup :
    ∀ {st : List (KObj σ)} (ds : List (KObj σ)),
      (st.map keyOf).Nodup → (((syncAll st ds).1).map keyOf).Nodup := by
  intro st ds
  induction ds generalizing st with
  | nil => intro h; simpa [syncAll] using h
  | cons d ds ih =>
    intro h
    simp only [syncAll]
    exact ih (syncOne_keys_nodup h d)

/-- Sequential application does not change lookups at undesired keys. -/
theorem syncAll_getByKey_not_mem {k : String × String} :
    ∀ {st : List (KObj σ)} (ds : List (KObj σ)),
      (∀ d ∈ ds, keyOf d ≠ k) →
      getByKey (syncAll st ds).1 k = getByKey st k := by
  intro st ds
  induction ds generalizing st with
  | nil => intro _; simp [syncAll]
  | cons d ds ih =>
    intro h
    simp only [syncAll]
    rw [ih (fun e he => h e (List.mem_cons_of_mem _ he))]
    exact syncOne_getByKey_ne (h d (List.mem_cons_self _ _))

/-- After an error-free sequential application with consistent desired
objects, every desired key holds its desired object. -/
theorem syncAll_getByKey_desired :
    ∀ {st : List (KObj σ)} (ds : List (KObj σ)),
      (st.map keyOf).Nodup →
      (∀ d₁ ∈ ds, ∀ d₂ ∈ ds, keyOf d₁ = keyOf d₂ → d₁ = d₂) →
      (syncAll st ds).2.2 = [] →
      ∀ d ∈ ds, getByKey (syncAll st ds).1 (keyOf d) = some d := by
  intro st ds
  induction ds generalizing st with
  | nil => intro _ _ _ d hd; cases hd
  | cons d ds ih =>
    intro hnd hcons herr e he
    have herr2 : (syncOne st d).2.2 = [] ∧ (syncAll (syncOne st d).1 ds).2.2 = [] := by
      have : (syncOne st d).2.2 ++ (syncAll (syncOne st d).1 ds).2.2 = [] := herr
      exact List.append_eq_nil.mp this
    have hnd1 : (((syncOne st d).1).map keyOf).Nodup := syncOne_keys_nodup hnd d
    have hcons' : ∀ d₁ ∈ ds, ∀ d₂ ∈ ds, keyOf d₁ = keyOf d₂ → d₁ = d₂ :=
      fun d₁ h₁ d₂ h₂ => hcons d₁ (List.mem_cons_of_mem _ h₁) d₂
        (List.mem_cons_of_mem _ h₂)
    rcases List.mem_cons.mp he with rfl | he'
    · by_cases hmem : ∃ d₂ ∈ ds, keyOf d₂ = keyOf e
      · obtain ⟨d₂, hd₂, hk₂⟩ := hmem
        have hde : d₂ = e := hcons d₂ (List.mem_cons_of_mem _ hd₂) e
          (List.mem_cons_self _ _) hk₂
        subst hde
        simp only [syncAll]
        exact ih hnd1 hcons' herr2.2 d₂ hd₂
      · push_neg at hmem
        simp only [syncAll]
        rw [syncAll_getByKey_not_mem ds hmem]
        exact syncOne_lookup_of_errs_nil herr2.1
    · simp only [syncAll]
      exact ih hnd1 hcons' herr2.2 e he'

/-- Sequential application of desired objects that are all already stored is
a complete no-op: no mutations, no errors, same store. -/
theorem syncAll_noop :
    ∀ {st : List (KObj σ)} (ds : List (KObj σ)),
      (∀ d ∈ ds, hasMarker d.labels = true ∧ getByKey st (keyOf d) = some d) →
      syncAll st ds = (st, [], []) := by
  intro st ds
  induction ds generalizing st with
  | nil => intro _; rfl
  | cons d ds ih =>
    intro h
    have h1 : syncOne st d = (st, [], []) :=
      syncOne_noop (h d (List.mem_cons_self _ _)).1 (h d (List.mem_cons_self _ _)).2
    have h2 : syncAll st ds = (st, [], []) :=
      ih (fun e he => h e (List.mem_cons_of_mem _ he))
    simp [syncAll, h1, h2]

/-- Objects without the owner marker survive sequential application. -/
theorem syncAll_mem_unmarked :
    ∀ {st : List (KObj σ)} (ds : List (KObj σ)),
      (st.map keyOf).Nodup →
      ∀ {o : KObj σ}, o ∈ st → hasMarker o.labels = false →
      o ∈ (syncAll st ds).1 := by
  intro st ds
  induction ds generalizing st with
  | nil => intro _ o ho _; simpa [syncAll] using ho
  | cons d ds ih =>
    intro hnd o ho hu
    simp only [syncAll]
    exact ih (syncOne_keys_nodup hnd d) (syncOne_mem_unmarked hnd ho hu d) hu

/-- Everything stored after sequential application was stored before or is
one of the applied objects. -/
theorem syncAll_post_mem :
    ∀ {st : List (KObj σ)} (ds : List (KObj σ)) {o : KObj σ},
      o ∈ (syncAll st ds).1 → o ∈ st ∨ o ∈ ds := by
  intro st ds
  induction ds generalizing st with
  | nil => intro o ho; exact Or.inl (by simpa [syncAll] using ho)
  | cons d ds ih =>
    intro o ho
    simp only [syncAll] at ho
    rcases ih ho with h | h
    · rcases syncOne_post_mem h with h' | h'
      · exact Or.inl h'
      · exact Or.inr (h' ▸ List.mem_cons_self _ _)
    · exact Or.inr (List.mem_cons_of_mem _ h)

end SyncLemmas

section DeleteLemmas

variable {σ : Type}

/-- The orphan-cleanup phase is a no-op when nothing is doomed. -/
theorem deletePhase_noop {ns base : String} {keep : List (String × String)}
    {st : List (KObj σ)} (h : ∀ o ∈ st, isDoomed ns base keep o = false) :
    deletePhase ns base keep st = (st, []) := by
  have h1 : st.filter (fun o => !(isDoomed ns base keep o)) = st :=
    List.filter_eq_self.mpr (fun o ho => by simp [h o ho])
  have h2 : st.filter (isDoomed ns base keep) = [] :=
    List.filter_eq_nil_iff.mpr (fun o ho => by simp [h o ho])
  simp [deletePhase, h1, h2]

/-- Lookup after the orphan-cleanup phase, for stores with unique keys. -/
theorem deletePhase_getByKey {ns base : String} {keep : List (String × String)}
    {st : List (KObj σ)} (hnd : (st.map keyOf).Nodup) (k : String × String) :
    getByKey (deletePhase ns base keep st).1 k =
      match getByKey st k with
      | some o => if isDoomed ns base keep o then none else some o
      | none => none := by
  have h := getByKey_filter (fun o => !(isDoomed ns base keep o)) hnd k
  simp only [deletePhase]
  rw [h]
  cases hg : getByKey st k with
  | none => rfl
  | some o => cases hd : isDoomed ns base keep o <;> simp [hd]

/-- The orphan-cleanup phase deletes exactly the doomed objects. -/
theorem deletePhase_muts (ns base : String) (keep : List (String × String))
    (st : List (KObj σ)) :
    (deletePhase ns base keep st).2 =
      (st.filter (isDoomed ns base keep)).map (fun o => Op.delete (keyOf o)) := rfl

/-- Objects without the owner marker survive orphan cleanup. -/
theorem deletePhase_mem_unmarked {ns base : String} {keep : List (String × String)}
    {st : List (KObj σ)} {o : KObj σ} (ho : o ∈ st)
    (hu : hasMarker o.labels = false) : o ∈ (deletePhase ns base keep st).1 := by
  refine List.mem_filter.mpr ⟨ho, ?_⟩
  simp [isDoomed, hu]

/-- Orphan cleanup preserves key uniqueness. -/
theorem deletePhase_keys_nodup {ns base : String} {keep : List (String × String)}
    {st : List (KObj σ)} (hnd : (st.map keyOf).Nodup) :
    (((deletePhase ns base keep st).1).map keyOf).Nodup := by
  have hsub : (deletePhase ns base keep st).1.Sublist st := List.filter_sublist st
  exact (hsub.map keyOf).nodup hnd

/-- Everything surviving orphan cleanup was stored and is not doomed. -/
theorem deletePhase_post_mem {ns base : String} {keep : List (String × String)}
    {st : List (KObj σ)} {o : KObj σ} (ho : o ∈ (deletePhase ns base keep st).1) :
    o ∈ st ∧ isDoomed ns base keep o = false := by
  have h := List.mem_filter.mp ho
  refine ⟨h.1, ?_⟩
  have := h.2
  cases hd : isDoomed ns base keep o
  · rfl
  · rw [hd] at this
    simp at this

end DeleteLemmas

end Polling

namespace Polling

/-- Membership in the kept pull requests is membership plus the base-branch
filter. -/
theorem mem_keptPRs {src : GitRepository} {prs : List PullRequest}
    {pr : PullRequest} :
    pr ∈ keptPRs src prs ↔
      pr ∈ prs ∧ pr.baseBranch = src.spec.reference.branch := by
  simp [keptPRs]

/-- Key of a derived planning object. -/
theorem keyOf_derivedTerraform (tmpl : Terraform) (src : GitRepository)
    (pr : PullRequest) :
    keyOf (derivedTerraform tmpl src pr) =
      (tmpl.nspace, tmpl.name ++ "-" ++ branchId pr) := rfl

/-- Key of a derived source object. -/
theorem keyOf_derivedSource (tmpl : Terraform) (src : GitRepository)
    (pr : PullRequest) :
    keyOf (derivedSource tmpl src pr) =
      (tmpl.nspace, src.name ++ "-" ++ branchId pr) := rfl

/-- Derived planning objects carry the owner marker. -/
theorem hasMarker_derivedTerraform (tmpl : Terraform) (src : GitRepository)
    (pr : PullRequest) :
    hasMarker (derivedTerraform tmpl src pr).labels = true :=
  hasMarker_derivedLabels tmpl.labels pr

/-- Derived source objects carry the owner marker. -/
theorem hasMarker_derivedSource (tmpl : Terraform) (src : GitRepository)
    (pr : PullRequest) :
    hasMarker (derivedSource tmpl src pr).labels = true :=
  hasMarker_derivedLabels src.labels pr

/-- Derived planning objects carry the pr-id label. -/
theorem prId_isSome_derivedTerraform (tmpl : Terraform) (src : GitRepository)
    (pr : PullRequest) :
    (lookupLabel (derivedTerraform tmpl src pr).labels prIdLabel).isSome =
      true := by
  show (lookupLabel (setLabel (setLabel tmpl.labels bbpLabel "true") prIdLabel
      (toString pr.number)) prIdLabel).isSome = true
  rw [lookupLabel_setLabel_self]
  rfl

/-- Derived source objects carry the pr-id label. -/
theorem prId_isSome_derivedSource (tmpl : Terraform) (src : GitRepository)
    (pr : PullRequest) :
    (lookupLabel (derivedSource tmpl src pr).labels prIdLabel).isSome =
      true := by
  show (lookupLabel (setLabel (setLabel src.labels bbpLabel "true") prIdLabel
      (toString pr.number)) prIdLabel).isSome = true
  rw [lookupLabel_setLabel_self]
  rfl

/-- Derived planning objects extend the template name. -/
theorem nameExtendsBase_derivedTerraform (tmpl : Terraform)
    (src : GitRepository) (pr : PullRequest) :
    nameExtendsBase tmpl.name (derivedTerraform tmpl src pr) = true :=
  nameExtendsBase_of_append _ tmpl.name (branchId pr) rfl

/-- Derived source objects extend the source name. -/
theorem nameExtendsBase_derivedSource (tmpl : Terraform)
    (src : GitRepository) (pr : PullRequest) :
    nameExtendsBase src.name (derivedSource tmpl src pr) = true :=
  nameExtendsBase_of_append _ src.name (branchId pr) rfl

/-- With pairwise-distinct branch ids, desired planning objects with equal
keys are equal. -/
theorem desiredTerraforms_key_inj {tmpl : Terraform} {src : GitRepository}
    {prs : List PullRequest}
    (hbid : ((keptPRs src prs).map branchId).Nodup) :
    ∀ d₁ ∈ desiredTerraforms tmpl src prs,
      ∀ d₂ ∈ desiredTerraforms tmpl src prs, keyOf d₁ = keyOf d₂ → d₁ = d₂ := by
  intro d₁ h₁ d₂ h₂ hk
  simp only [desiredTerraforms, List.mem_map] at h₁ h₂
  obtain ⟨p₁, hp₁, rfl⟩ := h₁
  obtain ⟨p₂, hp₂, rfl⟩ := h₂
  have hname : tmpl.name ++ "-" ++ branchId p₁ = tmpl.name ++ "-" ++ branchId p₂ :=
    congrArg Prod.snd hk
  have hb : branchId p₁ = branchId p₂ := string_append_left_cancel hname
  have hp : p₁ = p₂ := List.inj_on_of_nodup_map hbid hp₁ hp₂ hb
  rw [hp]

/-- With pairwise-distinct branch ids, desired source objects with equal
keys are equal. -/
theorem desiredSources_key_inj {tmpl : Terraform} {src : GitRepository}
    {prs : List PullRequest}
    (hbid : ((keptPRs src prs).map branchId).Nodup) :
    ∀ d₁ ∈ desiredSources tmpl src prs,
      ∀ d₂ ∈ desiredSources tmpl src prs, keyOf d₁ = keyOf d₂ → d₁ = d₂ := by
  intro d₁ h₁ d₂ h₂ hk
  simp only [desiredSources, List.mem_map] at h₁ h₂
  obtain ⟨p₁, hp₁, rfl⟩ := h₁
  obtain ⟨p₂, hp₂, rfl⟩ := h₂
  have hname : src.name ++ "-" ++ branchId p₁ = src.name ++ "-" ++ branchId p₂ :=
    congrArg Prod.snd hk
  have hb : branchId p₁ = branchId p₂ := string_append_left_cancel hname
  have hp : p₁ = p₂ := List.inj_on_of_nodup_map hbid hp₁ hp₂ hb
  rw [hp]

/-- An error-free reconcile had error-free application phases for both
object kinds. -/
theorem reconcile_errors_split {tmpl : Terraform} {src : GitRepository}
    {prs : List PullRequest} {store : Store}
    (h : (reconcile tmpl src prs store).errors = []) :
    (syncAll store.gitRepos (desiredSources tmpl src prs)).2.2 = [] ∧
      (syncAll store.terraforms (desiredTerraforms tmpl src prs)).2.2 = [] :=
  List.append_eq_nil.mp h

/-- Reconcile preserves store well-formedness. -/
theorem reconcile_wf {tmpl : Terraform} {src : GitRepository}
    {prs : List PullRequest} {store : Store} (hwf : store.wf) :
    (reconcile tmpl src prs store).store.wf :=
  ⟨deletePhase_keys_nodup (syncAll_keys_nodup _ hwf.1),
   deletePhase_keys_nodup (syncAll_keys_nodup _ hwf.2)⟩

/-- Unmarked planning objects survive reconcile untouched. -/
theorem reconcile_mem_unmarked_tf {tmpl : Terraform} {src : GitRepository}
    {prs : List PullRequest} {store : Store} (hwf : store.wf) {o : Terraform}
    (ho : o ∈ store.terraforms) (hu : hasMarker o.labels = false) :
    o ∈ (reconcile tmpl src prs store).store.terraforms :=
  deletePhase_mem_unmarked (syncAll_mem_unmarked _ hwf.1 ho hu) hu

/-- Unmarked source objects survive reconcile untouched. -/
theorem reconcile_mem_unmarked_src {tmpl : Terraform} {src : GitRepository}
    {prs : List PullRequest} {store : Store} (hwf : store.wf)
    {o : GitRepository} (ho : o ∈ store.gitRepos)
    (hu : hasMarker o.labels = false) :
    o ∈ (reconcile tmpl src prs store).store.gitRepos :=
  deletePhase_mem_unmarked (syncAll_mem_unmarked _ hwf.2 ho hu) hu

end Polling

namespace Polling

/-- After an error-free reconcile, each kept pull request's derived planning
object is stored at its key. -/
theorem reconcile_lookup_tf {tmpl : Terraform} {src : GitRepository}
    {prs : List PullRequest} {store : Store} (hwf : store.wf)
    (hbid : ((keptPRs src prs).map branchId).Nodup)
    (herr : (reconcile tmpl src prs store).errors = [])
    {pr : PullRequest} (hpr : pr ∈ keptPRs src prs) :
    getByKey (reconcile tmpl src prs store).store.terraforms
        (keyOf (derivedTerraform tmpl src pr)) =
      some (derivedTerraform tmpl src pr) := by
  have herrs := reconcile_errors_split herr
  have hd : derivedTerraform tmpl src pr ∈ desiredTerraforms tmpl src prs :=
    List.mem_map_of_mem _ hpr
  have h1 := syncAll_getByKey_desired (desiredTerraforms tmpl src prs) hwf.1
    (desiredTerraforms_key_inj hbid) herrs.2 _ hd
  have hnd1 := syncAll_keys_nodup
    (desiredTerraforms tmpl src prs) hwf.1
  show getByKey (deletePhase tmpl.nspace tmpl.name
      ((desiredTerraforms tmpl src prs).map keyOf)
      (syncAll store.terraforms (desiredTerraforms tmpl src prs)).1).1 _ = _
  rw [deletePhase_getByKey hnd1, h1]
  have hkeep : keyOf (derivedTerraform tmpl src pr) ∈
      (desiredTerraforms tmpl src prs).map keyOf := List.mem_map_of_mem keyOf hd
  have hdoom : isDoomed tmpl.nspace tmpl.name ((desiredTerraforms tmpl src prs).map keyOf)
      (derivedTerraform tmpl src pr) = false := by
    simp [isDoomed, hkeep]
  simp [hdoom]

/-- After an error-free reconcile, each kept pull request's derived source
object is stored at its key. -/
theorem reconcile_lookup_src {tmpl : Terraform} {src : GitRepository}
    {prs : List PullRequest} {store : Store} (hwf : store.wf)
    (hbid : ((keptPRs src prs).map branchId).Nodup)
    (herr : (reconcile tmpl src prs store).errors = [])
    {pr : PullRequest} (hpr : pr ∈ keptPRs src prs) :
    getByKey (reconcile tmpl src prs store).store.gitRepos
        (keyOf (derivedSource tmpl src pr)) =
      some (derivedSource tmpl src pr) := by
  have herrs := reconcile_errors_split herr
  have hd : derivedSource tmpl src pr ∈ desiredSources tmpl src prs :=
    List.mem_map_of_mem _ hpr
  have h1 := syncAll_getByKey_desired (desiredSources tmpl src prs) hwf.2
    (desiredSources_key_inj hbid) herrs.1 _ hd
  have hnd1 := syncAll_keys_nodup
    (desiredSources tmpl src prs) hwf.2
  show getByKey (deletePhase tmpl.nspace src.name
      ((desiredSources tmpl src prs).map keyOf)
      (syncAll store.gitRepos (desiredSources tmpl src prs)).1).1 _ = _
  rw [deletePhase_getByKey hnd1, h1]
  have hkeep : keyOf (derivedSource tmpl src pr) ∈
      (desiredSources tmpl src prs).map keyOf := List.mem_map_of_mem keyOf hd
  have hdoom : isDoomed tmpl.nspace src.name ((desiredSources tmpl src prs).map keyOf)
      (derivedSource tmpl src pr) = false := by
    simp [isDoomed, hkeep]
  simp [hdoom]

/-- After an error-free reconcile, every planning object of the template's
namespace collected by the ownership association (marker, pr-id label, name
suffix over the template name) is one of the desired derived objects. -/
theorem reconcile_marked_tf {tmpl : Terraform} {src : GitRepository}
    {prs : List PullRequest} {store : Store} (hwf : store.wf)
    (hbid : ((keptPRs src prs).map branchId).Nodup)
    (herr : (reconcile tmpl src prs store).errors = []) {o : Terraform}
    (ho : o ∈ (reconcile tmpl src prs store).store.terraforms)
    (hns : o.nspace = tmpl.nspace) (hm : hasMarker o.labels = true)
    (hpid : (lookupLabel o.labels prIdLabel).isSome = true)
    (hnb : nameExtendsBase tmpl.name o = true) :
    o ∈ desiredTerraforms tmpl src prs := by
  have herrs := reconcile_errors_split herr
  obtain ⟨ho1, hdoomf⟩ := deletePhase_post_mem ho
  have hkeep : keyOf o ∈ (desiredTerraforms tmpl src prs).map keyOf := by
    by_contra hc
    have hd : isDoomed tmpl.nspace tmpl.name ((desiredTerraforms tmpl src prs).map keyOf)
        o = true := by
      simp [isDoomed, hns, hm, hpid, hnb, hc]
    rw [hd] at hdoomf
    cases hdoomf
  obtain ⟨d, hd, hkd⟩ := List.mem_map.mp hkeep
  have hld := syncAll_getByKey_desired (desiredTerraforms tmpl src prs) hwf.1
    (desiredTerraforms_key_inj hbid) herrs.2 d hd
  have hlo := getByKey_self (syncAll_keys_nodup _ hwf.1) ho1
  rw [hkd] at hld
  rw [hld] at hlo
  cases hlo
  exact hd

/-- After an error-free reconcile, every source object of the template's
namespace collected by the ownership association (marker, pr-id label, name
suffix over the source name) is one of the desired derived objects. -/
theorem reconcile_marked_src {tmpl : Terraform} {src : GitRepository}
    {prs : List PullRequest} {store : Store} (hwf : store.wf)
    (hbid : ((keptPRs src prs).map branchId).Nodup)
    (herr : (reconcile tmpl src prs store).errors = []) {o : GitRepository}
    (ho : o ∈ (reconcile tmpl src prs store).store.gitRepos)
    (hns : o.nspace = tmpl.nspace) (hm : hasMarker o.labels = true)
    (hpid : (lookupLabel o.labels prIdLabel).isSome = true)
    (hnb : nameExtendsBase src.name o = true) :
    o ∈ desiredSources tmpl src prs := by
  have herrs := reconcile_errors_split herr
  obtain ⟨ho1, hdoomf⟩ := deletePhase_post_mem ho
  have hkeep : keyOf o ∈ (desiredSources tmpl src prs).map keyOf := by
    by_contra hc
    have hd : isDoomed tmpl.nspace src.name ((desiredSources tmpl src prs).map keyOf)
        o = true := by
      simp [isDoomed, hns, hm, hpid, hnb, hc]
    rw [hd] at hdoomf
    cases hdoomf
  obtain ⟨d, hd, hkd⟩ := List.mem_map.mp hkeep
  have hld := syncAll_getByKey_desired (desiredSources tmpl src prs) hwf.2
    (desiredSources_key_inj hbid) herrs.1 d hd
  have hlo := getByKey_self (syncAll_keys_nodup _ hwf.2) ho1
  rw [hkd] at hld
  rw [hld] at hlo
  cases hlo
  exact hd

/-- Reconcile leaves lookups unchanged at undesired keys whose occupant, if
any, is not collected by the ownership association. -/
theorem reconcile_frame_tf {tmpl : Terraform} {src : GitRepository}
    {prs : List PullRequest} {store : Store} (hwf : store.wf)
    {k : String × String}
    (hk : ∀ d ∈ desiredTerraforms tmpl src prs, keyOf d ≠ k)
    (hocc : ∀ o ∈ store.terraforms, keyOf o = k →
      isDoomed tmpl.nspace tmpl.name
        ((desiredTerraforms tmpl src prs).map keyOf) o = false) :
    getByKey (reconcile tmpl src prs store).store.terraforms k =
      getByKey store.terraforms k := by
  have h1 : getByKey (syncAll store.terraforms
      (desiredTerraforms tmpl src prs)).1 k = getByKey store.terraforms k :=
    syncAll_getByKey_not_mem _ hk
  have hnd1 := syncAll_keys_nodup
    (desiredTerraforms tmpl src prs) hwf.1
  show getByKey (deletePhase tmpl.nspace tmpl.name
      ((desiredTerraforms tmpl src prs).map keyOf)
      (syncAll store.terraforms (desiredTerraforms tmpl src prs)).1).1 _ = _
  rw [deletePhase_getByKey hnd1, h1]
  cases hg : getByKey store.terraforms k with
  | none => rfl
  | some o =>
    obtain ⟨hmem, hkey⟩ := getByKey_mem hg
    have hd := hocc _ hmem hkey
    simp [hd]

/-- Reconcile leaves source lookups unchanged at undesired keys whose
occupant, if any, is not collected by the ownership association. -/
theorem reconcile_frame_src {tmpl : Terraform} {src : GitRepository}
    {prs : List PullRequest} {store : Store} (hwf : store.wf)
    {k : String × String}
    (hk : ∀ d ∈ desiredSources tmpl src prs, keyOf d ≠ k)
    (hocc : ∀ o ∈ store.gitRepos, keyOf o = k →
      isDoomed tmpl.nspace src.name
        ((desiredSources tmpl src prs).map keyOf) o = false) :
    getByKey (reconcile tmpl src prs store).store.gitRepos k =
      getByKey store.gitRepos k := by
  have h1 : getByKey (syncAll store.gitRepos
      (desiredSources tmpl src prs)).1 k = getByKey store.gitRepos k :=
    syncAll_getByKey_not_mem _ hk
  have hnd1 := syncAll_keys_nodup
    (desiredSources tmpl src prs) hwf.2
  show getByKey (deletePhase tmpl.nspace src.name
      ((desiredSources tmpl src prs).map keyOf)
      (syncAll store.gitRepos (desiredSources tmpl src prs)).1).1 _ = _
  rw [deletePhase_getByKey hnd1, h1]
  cases hg : getByKey store.gitRepos k with
  | none => rfl
  | some o =>
    obtain ⟨hmem, hkey⟩ := getByKey_mem hg
    have hd := hocc _ hmem hkey
    simp [hd]

/-- No desired planning object has the template's key. -/
theorem keyOf_tmpl_not_desired {tmpl : Terraform} {src : GitRepository}
    {prs : List PullRequest} :
    ∀ d ∈ desiredTerraforms tmpl src prs, keyOf d ≠ keyOf tmpl := by
  intro d hd
  simp only [desiredTerraforms, List.mem_map] at hd
  obtain ⟨p, hp, rfl⟩ := hd
  intro h
  have h2 := congrArg Prod.snd h
  exact string_ne_dash_suffix tmpl.name (branchId p) h2.symm

/-- No desired source object has the original source's key. -/
theorem keyOf_src_not_desired {tmpl : Terraform} {src : GitRepository}
    {prs : List PullRequest} :
    ∀ d ∈ desiredSources tmpl src prs, keyOf d ≠ keyOf src := by
  intro d hd
  simp only [desiredSources, List.mem_map] at hd
  obtain ⟨p, hp, rfl⟩ := hd
  intro h
  have h2 := congrArg Prod.snd h
  exact string_ne_dash_suffix src.name (branchId p) h2.symm

end Polling

namespace Polling

/-- Whether a getSource result is a cross-namespace access denial. -/
def resultIsAccessDenied : Except SourceError GitRepository → Bool
  | .error e => e.isAccessDenied
  | .ok _ => false

/-- The tracked source object of the test fixtures. -/
def srcFix : GitRepository :=
  { name := "original-source"
    nspace := "default"
    labels := [("test-label", "123")]
    spec := { url := "https://github.com/tf-controller/helloworld"
              reference := { branch := "main" }
              passThrough := "src-rest" } }

/-- The template Terraform object of the test fixtures. -/
def tmplFix : Terraform :=
  { name := "original"
    nspace := "default"
    labels := [("test-label", "abc")]
    spec := { sourceRef := { kind := "GitRepository"
                             name := "original-source"
                             nspace := "" }
              planOnly := false
              storeReadablePlan := ""
              writeOutputsToSecret := some { name := "test-secret" }
              passThrough := "tmpl-rest" } }

/-- The fake repository of the test fixtures. -/
def repoFix : Repository :=
  { project := "fake-project", org := "fake-org", name := "fake-name" }

/-- Pull request 1 of the test fixtures. -/
def prFix1 : PullRequest :=
  { repository := repoFix, number := 1, baseBranch := "main",
    headBranch := "test-branch-1" }

/-- Pull request 2 of the test fixtures. -/
def prFix2 : PullRequest :=
  { repository := repoFix, number := 2, baseBranch := "main",
    headBranch := "test-branch-2" }

/-- Pull request 3 of the test fixtures. -/
def prFix3 : PullRequest :=
  { repository := repoFix, number := 3, baseBranch := "main",
    headBranch := "test-branch-3" }

/-- The store holding exactly the original template and source. -/
def storeFix : Store := { terraforms := [tmplFix], gitRepos := [srcFix] }

/-- A template whose source reference has an unsupported kind. -/
def tmplBadKind : Terraform :=
  { tmplFix with spec := { tmplFix.spec with
      sourceRef := { kind := "Bucket", name := "original-source",
                     nspace := "" } } }

/-- A template with an unsupported kind and a cross-namespace reference. -/
def tmplBadBoth : Terraform :=
  { tmplFix with spec := { tmplFix.spec with
      sourceRef := { kind := "Bucket", name := "original-source",
                     nspace := "other" } } }

/-- Claim C8: when the template's source reference kind is not GitRepository, the
pass fails with the unsupported-kind configuration error and performs no
store change and no mutation of any kind. -/
theorem pollPass_unsupported_kind (ncr : Bool) (tf : Terraform)
    (prs : List PullRequest) (store : Store)
    (h : tf.spec.sourceRef.kind ≠ GitRepositoryKind) :
    pollPass ncr tf prs store =
      (store, [], [],
        some (SourceError.unsupportedKind tf.spec.sourceRef.kind)) := by
  simp [pollPass, getSource, h]

/-- Witness for C8 at the concrete fixture with kind Bucket. -/
theorem pollPass_unsupported_kind_witness :
    ("Bucket" : String) ≠ GitRepositoryKind ∧
      pollPass false tmplBadKind [] storeFix =
        (storeFix, [], [], some (SourceError.unsupportedKind "Bucket")) :=
  ⟨by decide, pollPass_unsupported_kind false tmplBadKind [] storeFix (by decide)⟩

/-- Counterexample to claim C9: with cross-namespace references disabled and a
source reference naming a foreign namespace, the pass does not fail with an
access-denied error when the reference kind is also unsupported; the
unsupported-kind check runs first. -/
theorem pollPass_kind_precedence_counterexample :
    pollPass true tmplBadBoth [] storeFix =
      (storeFix, [], [], some (SourceError.unsupportedKind "Bucket")) ∧
      SourceError.isAccessDenied (SourceError.unsupportedKind "Bucket") = false := by
  constructor
  · decide
  · rfl

/-- Amended claim C9: when cross-namespace references are disabled, the source
reference kind is GitRepository, and the reference names a nonempty
namespace different from the template's own, the pass fails with the
access-denied error and performs no store change and no mutation. -/
theorem pollPass_cross_namespace_denied (tf : Terraform)
    (prs : List PullRequest) (store : Store)
    (hkind : tf.spec.sourceRef.kind = GitRepositoryKind)
    (hns : tf.spec.sourceRef.nspace ≠ "")
    (hne : tf.spec.sourceRef.nspace ≠ tf.nspace) :
    pollPass true tf prs store =
      (store, [], [], some (SourceError.accessDenied (accessDeniedMsg tf))) := by
  have hkey : (sourceKey tf).1 = tf.spec.sourceRef.nspace := by
    simp [sourceKey, hns]
  simp [pollPass, getSource, hkind, hkey, hne]

/-- A template with a supported kind referencing a foreign namespace. -/
def tmplCross : Terraform :=
  { tmplFix with spec := { tmplFix.spec with
      sourceRef := { kind := "GitRepository", name := "original-source",
                     nspace := "other" } } }

/-- Witness for the amended C9 at a concrete cross-namespace fixture. -/
theorem pollPass_cross_namespace_denied_witness :
    (tmplCross.spec.sourceRef.kind = GitRepositoryKind ∧
      tmplCross.spec.sourceRef.nspace ≠ "" ∧
      tmplCross.spec.sourceRef.nspace ≠ tmplCross.nspace) ∧
      pollPass true tmplCross [] storeFix =
        (storeFix, [], [],
          some (SourceError.accessDenied (accessDeniedMsg tmplCross))) :=
  ⟨⟨by decide, by decide, by decide⟩,
    pollPass_cross_namespace_denied tmplCross [] storeFix (by decide) (by decide)
      (by decide)⟩

/-- Claim C10: for a template whose source reference namespace is empty, the
lookup key is in the template's own namespace, the result is never an
access denial whatever the policy, and for the supported kind getSource is
exactly the lookup of the referenced name in the template's namespace. -/
theorem getSource_empty_ref_namespace (ncr : Bool) (store : Store)
    (tf : Terraform) (h : tf.spec.sourceRef.nspace = "") :
    sourceKey tf = (tf.nspace, tf.spec.sourceRef.name) ∧
      resultIsAccessDenied (getSource ncr store tf) = false ∧
      (tf.spec.sourceRef.kind = GitRepositoryKind →
        getSource ncr store tf =
          match getByKey store.gitRepos (tf.nspace, tf.spec.sourceRef.name) with
          | some o => .ok o
          | none => .error .notFound) := by
  have hk : sourceKey tf = (tf.nspace, tf.spec.sourceRef.name) := by
    simp [sourceKey, h]
  have hcond : ¬(ncr = true ∧ (sourceKey tf).1 ≠ tf.nspace) := by
    rw [hk]
    simp
  refine ⟨hk, ?_, ?_⟩
  · by_cases hkind : tf.spec.sourceRef.kind = GitRepositoryKind
    · simp only [getSource, hkind, hcond]
      simp only [ne_eq, not_true_eq_false, if_false, if_neg hcond, hk]
      cases getByKey store.gitRepos (tf.nspace, tf.spec.sourceRef.name) <;>
        simp [resultIsAccessDenied, SourceError.isAccessDenied]
    · simp [getSource, hkind, resultIsAccessDenied, SourceError.isAccessDenied]
  · intro hkind
    simp only [getSource, hkind]
    simp only [ne_eq, not_true_eq_false, if_false, if_neg hcond, hk]
    simp

/-- Witness for C10 at the concrete fixture (empty reference namespace,
policy enabled). -/
theorem getSource_empty_ref_namespace_witness :
    tmplFix.spec.sourceRef.nspace = "" ∧
      (sourceKey tmplFix = (tmplFix.nspace, tmplFix.spec.sourceRef.name) ∧
        resultIsAccessDenied (getSource true storeFix tmplFix) = false ∧
        (tmplFix.spec.sourceRef.kind = GitRepositoryKind →
          getSource true storeFix tmplFix =
            match getByKey storeFix.gitRepos
                (tmplFix.nspace, tmplFix.spec.sourceRef.name) with
            | some o => .ok o
            | none => .error .notFound)) :=
  ⟨by decide, getSource_empty_ref_namespace true storeFix tmplFix (by decide)⟩

end Polling

namespace Polling

/-- Derived planning objects depend only on the request's head branch and
number. -/
theorem derivedTerraform_congr {tmpl : Terraform} {src : GitRepository}
    {q pr : PullRequest} (hh : q.headBranch = pr.headBranch)
    (hn : q.number = pr.number) :
    derivedTerraform tmpl src q = derivedTerraform tmpl src pr := by
  simp [derivedTerraform, branchId, derivedLabels, hh, hn]

/-- Derived source objects depend only on the request's head branch and
number. -/
theorem derivedSource_congr {tmpl : Terraform} {src : GitRepository}
    {q pr : PullRequest} (hh : q.headBranch = pr.headBranch)
    (hn : q.number = pr.number) :
    derivedSource tmpl src q = derivedSource tmpl src pr := by
  simp [derivedSource, branchId, derivedLabels, hh, hn]

/-- When every desired object is already stored as such, reconcile reduces
to its orphan-cleanup phase. -/
theorem reconcile_eq_of_sync_noop (tmpl : Terraform) (src : GitRepository)
    (prs : List PullRequest) (st : Store)
    (hT : ∀ d ∈ desiredTerraforms tmpl src prs,
      hasMarker d.labels = true ∧ getByKey st.terraforms (keyOf d) = some d)
    (hS : ∀ d ∈ desiredSources tmpl src prs,
      hasMarker d.labels = true ∧ getByKey st.gitRepos (keyOf d) = some d) :
    reconcile tmpl src prs st =
      { store :=
          { terraforms := (deletePhase tmpl.nspace tmpl.name
              ((desiredTerraforms tmpl src prs).map keyOf) st.terraforms).1
            gitRepos := (deletePhase tmpl.nspace src.name
              ((desiredSources tmpl src prs).map keyOf) st.gitRepos).1 }
        tfMuts := (deletePhase tmpl.nspace tmpl.name
          ((desiredTerraforms tmpl src prs).map keyOf) st.terraforms).2
        srcMuts := (deletePhase tmpl.nspace src.name
          ((desiredSources tmpl src prs).map keyOf) st.gitRepos).2
        errors := [] } := by
  have hsT := syncAll_noop (desiredTerraforms tmpl src prs) hT
  have hsS := syncAll_noop (desiredSources tmpl src prs) hS
  simp [reconcile, hsT, hsS]

/-- Claim C1: after a successful reconcile, every pull request targeting the
tracked branch has exactly one planning object named by suffixing the
template name with its branch id and exactly one source object named by
suffixing the source name with its branch id, both in the template's
namespace. -/
theorem reconcile_completeness {tmpl : Terraform} {src : GitRepository}
    {prs : List PullRequest} {store : Store} (hwf : store.wf)
    (hbid : ((keptPRs src prs).map branchId).Nodup) {pr : PullRequest}
    (hpr : pr ∈ prs) (hbase : pr.baseBranch = src.spec.reference.branch)
    (herr : (reconcile tmpl src prs store).errors = []) :
    ((reconcile tmpl src prs store).store.terraforms.filter
        (fun o => decide (keyOf o =
          (tmpl.nspace, tmpl.name ++ "-" ++ branchId pr)))).length = 1 ∧
      ((reconcile tmpl src prs store).store.gitRepos.filter
        (fun o => decide (keyOf o =
          (tmpl.nspace, src.name ++ "-" ++ branchId pr)))).length = 1 := by
  have hkept : pr ∈ keptPRs src prs := mem_keptPRs.mpr ⟨hpr, hbase⟩
  have hwf2 := @reconcile_wf tmpl src prs store hwf
  constructor
  · have h1 := reconcile_lookup_tf hwf hbid herr hkept
    rw [keyOf_derivedTerraform] at h1
    obtain ⟨hm1, hk1⟩ := getByKey_mem h1
    have hfil := filter_eq_single
      (fun o => decide (keyOf o = (tmpl.nspace, tmpl.name ++ "-" ++ branchId pr)))
      hwf2.1 hm1 (by simp [keyOf_derivedTerraform])
      (fun y hy hpy => by
        have hky : keyOf y = (tmpl.nspace, tmpl.name ++ "-" ++ branchId pr) :=
          of_decide_eq_true hpy
        have hly := getByKey_self hwf2.1 hy
        rw [hky] at hly
        simpa using hly.symm.trans h1)
    rw [hfil]
    rfl
  · have h1 := reconcile_lookup_src hwf hbid herr hkept
    rw [keyOf_derivedSource] at h1
    obtain ⟨hm1, hk1⟩ := getByKey_mem h1
    have hfil := filter_eq_single
      (fun o => decide (keyOf o = (tmpl.nspace, src.name ++ "-" ++ branchId pr)))
      hwf2.2 hm1 (by simp [keyOf_derivedSource])
      (fun y hy hpy => by
        have hky : keyOf y = (tmpl.nspace, src.name ++ "-" ++ branchId pr) :=
          of_decide_eq_true hpy
        have hly := getByKey_self hwf2.2 hy
        rw [hky] at hly
        simpa using hly.symm.trans h1)
    rw [hfil]
    rfl

/-- Claim C2: after a successful reconcile, the planning object stored for a kept
pull request carries exactly the template spec with the derived source
reference, the forced planning fields, the suffixed output secret, all other
spec fields verbatim, and the template labels plus the owner markers; since
this holds for every input template, a template change propagates to every
derived planning object on the next reconcile. -/
theorem reconcile_derived_spec {tmpl : Terraform} {src : GitRepository}
    {prs : List PullRequest} {store : Store} (hwf : store.wf)
    (hbid : ((keptPRs src prs).map branchId).Nodup) {pr : PullRequest}
    (hpr : pr ∈ prs) (hbase : pr.baseBranch = src.spec.reference.branch)
    (herr : (reconcile tmpl src prs store).errors = []) :
    ∀ o, getByKey (reconcile tmpl src prs store).store.terraforms
        (tmpl.nspace, tmpl.name ++ "-" ++ branchId pr) = some o →
      o.spec = { sourceRef := { kind := tmpl.spec.sourceRef.kind
                                name := src.name ++ "-" ++ branchId pr
                                nspace := tmpl.nspace }
                 planOnly := true
                 storeReadablePlan := "human"
                 writeOutputsToSecret := tmpl.spec.writeOutputsToSecret.map
                   (fun w => { name := w.name ++ "-" ++ branchId pr })
                 passThrough := tmpl.spec.passThrough } ∧
        o.labels = derivedLabels tmpl.labels pr := by
  intro o ho
  have hkept : pr ∈ keptPRs src prs := mem_keptPRs.mpr ⟨hpr, hbase⟩
  have h1 := reconcile_lookup_tf hwf hbid herr hkept
  rw [keyOf_derivedTerraform] at h1
  rw [h1] at ho
  cases ho
  exact ⟨rfl, rfl⟩

/-- Amended claim C7: after a successful reconcile, the stored derived planning
object's labels are the template's labels plus the owner marker and pr-id,
while the stored derived source object's labels are the original source
object's labels plus the owner marker and pr-id. -/
theorem reconcile_derived_labels {tmpl : Terraform} {src : GitRepository}
    {prs : List PullRequest} {store : Store} (hwf : store.wf)
    (hbid : ((keptPRs src prs).map branchId).Nodup) {pr : PullRequest}
    (hpr : pr ∈ prs) (hbase : pr.baseBranch = src.spec.reference.branch)
    (herr : (reconcile tmpl src prs store).errors = []) :
    (∀ o, getByKey (reconcile tmpl src prs store).store.terraforms
        (tmpl.nspace, tmpl.name ++ "-" ++ branchId pr) = some o →
      o.labels = derivedLabels tmpl.labels pr) ∧
      (∀ o, getByKey (reconcile tmpl src prs store).store.gitRepos
        (tmpl.nspace, src.name ++ "-" ++ branchId pr) = some o →
      o.labels = derivedLabels src.labels pr) := by
  have hkept : pr ∈ keptPRs src prs := mem_keptPRs.mpr ⟨hpr, hbase⟩
  constructor
  · intro o ho
    have h1 := reconcile_lookup_tf hwf hbid herr hkept
    rw [keyOf_derivedTerraform] at h1
    rw [h1] at ho
    cases ho
    rfl
  · intro o ho
    have h1 := reconcile_lookup_src hwf hbid herr hkept
    rw [keyOf_derivedSource] at h1
    rw [h1] at ho
    cases ho
    rfl

end Polling

namespace Polling

/-- Counterexample to claim C7: at the fixtures of Test_poll_reconcile_objects the
stored derived source object carries the original source's labels plus the
markers, which differ from the template's labels plus the markers, so the
derived source's labels are not the template's labels plus the markers. -/
theorem derived_source_labels_counterexample :
    ((getByKey (reconcile tmplFix srcFix [prFix3] storeFix).store.gitRepos
        ("default", "original-source-test-branch-3-3")).map
      (fun o => o.labels)) = some (derivedLabels srcFix.labels prFix3) ∧
      derivedLabels srcFix.labels prFix3 ≠ derivedLabels tmplFix.labels prFix3 := by
  constructor
  · decide
  · decide

/-- Claim C4: reconcile never creates, updates, or deletes the template
object or its source object: the lookup at each one's key is unchanged by
every call, because no desired key equals it and the ownership association
of section 4.2 (owner marker, pr-id label, name suffix over the listing
base name) never collects an object named exactly by the base name;
moreover every stored object lacking the owner-marker label survives every
reconcile untouched. -/
theorem reconcile_retention {tmpl : Terraform} {src : GitRepository}
    {prs : List PullRequest} {store : Store} (hwf : store.wf) :
    getByKey (reconcile tmpl src prs store).store.terraforms (keyOf tmpl) =
        getByKey store.terraforms (keyOf tmpl) ∧
      getByKey (reconcile tmpl src prs store).store.gitRepos (keyOf src) =
        getByKey store.gitRepos (keyOf src) ∧
      (∀ o ∈ store.terraforms, hasMarker o.labels = false →
        o ∈ (reconcile tmpl src prs store).store.terraforms) ∧
      (∀ o ∈ store.gitRepos, hasMarker o.labels = false →
        o ∈ (reconcile tmpl src prs store).store.gitRepos) := by
  refine ⟨?_, ?_, fun _ ho hu => reconcile_mem_unmarked_tf hwf ho hu,
    fun _ ho hu => reconcile_mem_unmarked_src hwf ho hu⟩
  · refine reconcile_frame_tf hwf keyOf_tmpl_not_desired ?_
    intro o ho hko
    have hname : o.name = tmpl.name := congrArg Prod.snd hko
    have hnb := nameExtendsBase_self tmpl.name o hname
    simp [isDoomed, hnb]
  · refine reconcile_frame_src hwf keyOf_src_not_desired ?_
    intro o ho hko
    have hname : o.name = src.name := congrArg Prod.snd hko
    have hnb := nameExtendsBase_self src.name o hname
    simp [isDoomed, hnb]

/-- Claim C6: when no pull request targets the tracked branch, the filter keeps
nothing and reconcile on the store holding exactly the unmarked template and
source changes nothing: no mutation, no error, and the store still holds
exactly the original template and source. -/
theorem reconcile_no_match (tmpl : Terraform) (src : GitRepository)
    (prs : List PullRequest)
    (hbase : ∀ pr ∈ prs, pr.baseBranch ≠ src.spec.reference.branch)
    (hm1 : hasMarker tmpl.labels = false) (hm2 : hasMarker src.labels = false) :
    keptPRs src prs = [] ∧
      reconcile tmpl src prs { terraforms := [tmpl], gitRepos := [src] } =
        { store := { terraforms := [tmpl], gitRepos := [src] }
          tfMuts := [], srcMuts := [], errors := [] } := by
  have hk : keptPRs src prs = [] :=
    List.filter_eq_nil_iff.mpr (fun pr hpr => by simp [hbase pr hpr])
  refine ⟨hk, ?_⟩
  have hdt : desiredTerraforms tmpl src prs = [] := by
    simp [desiredTerraforms, hk]
  have hds : desiredSources tmpl src prs = [] := by
    simp [desiredSources, hk]
  have d1 : deletePhase tmpl.nspace tmpl.name ([] : List (String × String)) [tmpl] =
      ([tmpl], []) :=
    deletePhase_noop (fun o ho => by
      rcases List.mem_singleton.mp ho with rfl
      simp [isDoomed, hm1])
  have d2 : deletePhase tmpl.nspace src.name ([] : List (String × String)) [src] =
      ([src], []) :=
    deletePhase_noop (fun o ho => by
      rcases List.mem_singleton.mp ho with rfl
      simp [isDoomed, hm2])
  simp [reconcile, hdt, hds, syncAll, d1, d2]

end Polling

namespace Polling

/-- Claim C3: a second reconcile with the same template, source and pull requests,
run on the store produced by a successful first reconcile, performs zero
mutations on either object kind, reports zero errors, and leaves the store
exactly as the first call left it. -/
theorem reconcile_idempotent {tmpl : Terraform} {src : GitRepository}
    {prs : List PullRequest} {store : Store} (hwf : store.wf)
    (hbid : ((keptPRs src prs).map branchId).Nodup)
    (herr : (reconcile tmpl src prs store).errors = []) :
    reconcile tmpl src prs (reconcile tmpl src prs store).store =
      { store := (reconcile tmpl src prs store).store
        tfMuts := [], srcMuts := [], errors := [] } := by
  have hT : ∀ d ∈ desiredTerraforms tmpl src prs,
      hasMarker d.labels = true ∧
        getByKey (reconcile tmpl src prs store).store.terraforms (keyOf d) =
          some d := by
    intro d hd
    obtain ⟨p, hp, rfl⟩ := List.mem_map.mp hd
    exact ⟨hasMarker_derivedTerraform tmpl src p,
      reconcile_lookup_tf hwf hbid herr hp⟩
  have hS : ∀ d ∈ desiredSources tmpl src prs,
      hasMarker d.labels = true ∧
        getByKey (reconcile tmpl src prs store).store.gitRepos (keyOf d) =
          some d := by
    intro d hd
    obtain ⟨p, hp, rfl⟩ := List.mem_map.mp hd
    exact ⟨hasMarker_derivedSource tmpl src p,
      reconcile_lookup_src hwf hbid herr hp⟩
  have hrw := reconcile_eq_of_sync_noop tmpl src prs
    (reconcile tmpl src prs store).store hT hS
  rw [hrw]
  have hdT : ∀ o ∈ (reconcile tmpl src prs store).store.terraforms,
      isDoomed tmpl.nspace tmpl.name ((desiredTerraforms tmpl src prs).map keyOf) o =
        false := by
    intro o ho
    by_cases hns : o.nspace = tmpl.nspace
    · by_cases hm : hasMarker o.labels = true
      · by_cases hpid : (lookupLabel o.labels prIdLabel).isSome = true
        · by_cases hnb : nameExtendsBase tmpl.name o = true
          · have hmem := reconcile_marked_tf hwf hbid herr ho hns hm hpid hnb
            have hk : keyOf o ∈ (desiredTerraforms tmpl src prs).map keyOf :=
              List.mem_map_of_mem keyOf hmem
            simp [isDoomed, hk]
          · simp [isDoomed, hnb]
        · simp [isDoomed, hpid]
      · simp [isDoomed, hm]
    · simp [isDoomed, hns]
  have hdS : ∀ o ∈ (reconcile tmpl src prs store).store.gitRepos,
      isDoomed tmpl.nspace src.name ((desiredSources tmpl src prs).map keyOf) o =
        false := by
    intro o ho
    by_cases hns : o.nspace = tmpl.nspace
    · by_cases hm : hasMarker o.labels = true
      · by_cases hpid : (lookupLabel o.labels prIdLabel).isSome = true
        · by_cases hnb : nameExtendsBase src.name o = true
          · have hmem := reconcile_marked_src hwf hbid herr ho hns hm hpid hnb
            have hk : keyOf o ∈ (desiredSources tmpl src prs).map keyOf :=
              List.mem_map_of_mem keyOf hmem
            simp [isDoomed, hk]
          · simp [isDoomed, hnb]
        · simp [isDoomed, hpid]
      · simp [isDoomed, hm]
    · simp [isDoomed, hns]
  rw [deletePhase_noop hdT, deletePhase_noop hdS]

/-- The pull-request list with every entry matching one request's head
branch and number removed (the next poll after that request closes). -/
def withoutPR (pr : PullRequest) (prs : List PullRequest) : List PullRequest :=
  prs.filter
    (fun q => !(decide (q.headBranch = pr.headBranch ∧ q.number = pr.number)))

end Polling

namespace Polling

/-- Membership in kept requests after removing one request. -/
theorem mem_kept_withoutPR {src : GitRepository} {prs : List PullRequest}
    {pr : PullRequest} (q : PullRequest) :
    q ∈ keptPRs src (withoutPR pr prs) ↔
      q ∈ keptPRs src prs ∧
        ¬(q.headBranch = pr.headBranch ∧ q.number = pr.number) := by
  simp only [keptPRs, withoutPR, List.mem_filter, decide_eq_true_eq,
    Bool.not_eq_true', decide_eq_false_iff_not]
  tauto

/-- Claim C5: when one pull request disappears from the input, the next reconcile
on the store produced by a successful first reconcile issues exactly one
planning-object delete and exactly one source-object delete, both keyed by
the vanished request's branch id, reports no error, and afterwards neither
derived object is stored. -/
theorem reconcile_orphan_cleanup {tmpl : Terraform} {src : GitRepository}
    {prs : List PullRequest} {store : Store} (hwf : store.wf)
    (hbid : ((keptPRs src prs).map branchId).Nodup)
    (herr : (reconcile tmpl src prs store).errors = [])
    {pr : PullRequest} (hpr : pr ∈ prs)
    (hbase : pr.baseBranch = src.spec.reference.branch) :
    (reconcile tmpl src (withoutPR pr prs)
        (reconcile tmpl src prs store).store).tfMuts =
      [Op.delete (tmpl.nspace, tmpl.name ++ "-" ++ branchId pr)] ∧
      (reconcile tmpl src (withoutPR pr prs)
        (reconcile tmpl src prs store).store).srcMuts =
        [Op.delete (tmpl.nspace, src.name ++ "-" ++ branchId pr)] ∧
      (reconcile tmpl src (withoutPR pr prs)
        (reconcile tmpl src prs store).store).errors = [] ∧
      getByKey (reconcile tmpl src (withoutPR pr prs)
          (reconcile tmpl src prs store).store).store.terraforms
        (tmpl.nspace, tmpl.name ++ "-" ++ branchId pr) = none ∧
      getByKey (reconcile tmpl src (withoutPR pr prs)
          (reconcile tmpl src prs store).store).store.gitRepos
        (tmpl.nspace, src.name ++ "-" ++ branchId pr) = none := by
  have hkpr : pr ∈ keptPRs src prs := mem_keptPRs.mpr ⟨hpr, hbase⟩
  have hwf1 := @reconcile_wf tmpl src prs store hwf
  have hT2 : ∀ d ∈ desiredTerraforms tmpl src (withoutPR pr prs),
      hasMarker d.labels = true ∧
        getByKey (reconcile tmpl src prs store).store.terraforms (keyOf d) =
          some d := by
    intro d hd
    obtain ⟨q, hq, rfl⟩ := List.mem_map.mp hd
    have hq1 : q ∈ keptPRs src prs := ((mem_kept_withoutPR q).mp hq).1
    exact ⟨hasMarker_derivedTerraform tmpl src q,
      reconcile_lookup_tf hwf hbid herr hq1⟩
  have hS2 : ∀ d ∈ desiredSources tmpl src (withoutPR pr prs),
      hasMarker d.labels = true ∧
        getByKey (reconcile tmpl src prs store).store.gitRepos (keyOf d) =
          some d := by
    intro d hd
    obtain ⟨q, hq, rfl⟩ := List.mem_map.mp hd
    have hq1 : q ∈ keptPRs src prs := ((mem_kept_withoutPR q).mp hq).1
    exact ⟨hasMarker_derivedSource tmpl src q,
      reconcile_lookup_src hwf hbid herr hq1⟩
  have hrw := reconcile_eq_of_sync_noop tmpl src (withoutPR pr prs)
    (reconcile tmpl src prs store).store hT2 hS2
  rw [hrw]
  have hxT : derivedTerraform tmpl src pr ∈
      (reconcile tmpl src prs store).store.terraforms :=
    (getByKey_mem (reconcile_lookup_tf hwf hbid herr hkpr)).1
  have hxS : derivedSource tmpl src pr ∈
      (reconcile tmpl src prs store).store.gitRepos :=
    (getByKey_mem (reconcile_lookup_src hwf hbid herr hkpr)).1
  have hpxT : isDoomed tmpl.nspace tmpl.name
      ((desiredTerraforms tmpl src (withoutPR pr prs)).map keyOf)
      (derivedTerraform tmpl src pr) = true := by
    simp only [isDoomed, decide_eq_true_eq]
    refine ⟨rfl, hasMarker_derivedTerraform tmpl src pr,
      prId_isSome_derivedTerraform tmpl src pr,
      nameExtendsBase_derivedTerraform tmpl src pr, ?_⟩
    intro hin
    obtain ⟨d, hd, hkd⟩ := List.mem_map.mp hin
    obtain ⟨q, hq, rfl⟩ := List.mem_map.mp hd
    have hb : branchId q = branchId pr :=
      string_append_left_cancel (congrArg Prod.snd hkd)
    have hq1 : q ∈ keptPRs src prs := ((mem_kept_withoutPR q).mp hq).1
    have hqpr : q = pr := List.inj_on_of_nodup_map hbid hq1 hkpr hb
    have hnm := ((mem_kept_withoutPR q).mp hq).2
    rw [hqpr] at hnm
    exact hnm ⟨rfl, rfl⟩
  have hpxS : isDoomed tmpl.nspace src.name
      ((desiredSources tmpl src (withoutPR pr prs)).map keyOf)
      (derivedSource tmpl src pr) = true := by
    simp only [isDoomed, decide_eq_true_eq]
    refine ⟨rfl, hasMarker_derivedSource tmpl src pr,
      prId_isSome_derivedSource tmpl src pr,
      nameExtendsBase_derivedSource tmpl src pr, ?_⟩
    intro hin
    obtain ⟨d, hd, hkd⟩ := List.mem_map.mp hin
    obtain ⟨q, hq, rfl⟩ := List.mem_map.mp hd
    have hb : branchId q = branchId pr :=
      string_append_left_cancel (congrArg Prod.snd hkd)
    have hq1 : q ∈ keptPRs src prs := ((mem_kept_withoutPR q).mp hq).1
    have hqpr : q = pr := List.inj_on_of_nodup_map hbid hq1 hkpr hb
    have hnm := ((mem_kept_withoutPR q).mp hq).2
    rw [hqpr] at hnm
    exact hnm ⟨rfl, rfl⟩
  have huniqT : ∀ y ∈ (reconcile tmpl src prs store).store.terraforms,
      isDoomed tmpl.nspace tmpl.name
        ((desiredTerraforms tmpl src (withoutPR pr prs)).map keyOf) y = true →
      y = derivedTerraform tmpl src pr := by
    intro y hy hdy
    simp only [isDoomed, decide_eq_true_eq] at hdy
    have hymem := reconcile_marked_tf hwf hbid herr hy hdy.1 hdy.2.1
      hdy.2.2.1 hdy.2.2.2.1
    obtain ⟨q, hq, rfl⟩ := List.mem_map.mp hymem
    by_cases hq2 : q ∈ keptPRs src (withoutPR pr prs)
    · exfalso
      exact hdy.2.2.2.2 (List.mem_map_of_mem keyOf
        (List.mem_map_of_mem (derivedTerraform tmpl src) hq2))
    · have hmatch : q.headBranch = pr.headBranch ∧ q.number = pr.number := by
        by_contra hc
        exact hq2 ((mem_kept_withoutPR q).mpr ⟨hq, hc⟩)
      exact derivedTerraform_congr hmatch.1 hmatch.2
  have huniqS : ∀ y ∈ (reconcile tmpl src prs store).store.gitRepos,
      isDoomed tmpl.nspace src.name
        ((desiredSources tmpl src (withoutPR pr prs)).map keyOf) y = true →
      y = derivedSource tmpl src pr := by
    intro y hy hdy
    simp only [isDoomed, decide_eq_true_eq] at hdy
    have hymem := reconcile_marked_src hwf hbid herr hy hdy.1 hdy.2.1
      hdy.2.2.1 hdy.2.2.2.1
    obtain ⟨q, hq, rfl⟩ := List.mem_map.mp hymem
    by_cases hq2 : q ∈ keptPRs src (withoutPR pr prs)
    · exfalso
      exact hdy.2.2.2.2 (List.mem_map_of_mem keyOf
        (List.mem_map_of_mem (derivedSource tmpl src) hq2))
    · have hmatch : q.headBranch = pr.headBranch ∧ q.number = pr.number := by
        by_contra hc
        exact hq2 ((mem_kept_withoutPR q).mpr ⟨hq, hc⟩)
      exact derivedSource_congr hmatch.1 hmatch.2
  have hfilT := filter_eq_single
    (isDoomed tmpl.nspace tmpl.name
      ((desiredTerraforms tmpl src (withoutPR pr prs)).map keyOf))
    hwf1.1 hxT hpxT huniqT
  have hfilS := filter_eq_single
    (isDoomed tmpl.nspace src.name
      ((desiredSources tmpl src (withoutPR pr prs)).map keyOf))
    hwf1.2 hxS hpxS huniqS
  have hlkT := reconcile_lookup_tf hwf hbid herr hkpr
  rw [keyOf_derivedTerraform] at hlkT
  have hlkS := reconcile_lookup_src hwf hbid herr hkpr
  rw [keyOf_derivedSource] at hlkS
  refine ⟨?_, ?_, ?_, ?_, ?_⟩
  · show (deletePhase tmpl.nspace tmpl.name
        ((desiredTerraforms tmpl src (withoutPR pr prs)).map keyOf)
        (reconcile tmpl src prs store).store.terraforms).2 = _
    rw [deletePhase_muts, hfilT]
    rfl
  · show (deletePhase tmpl.nspace src.name
        ((desiredSources tmpl src (withoutPR pr prs)).map keyOf)
        (reconcile tmpl src prs store).store.gitRepos).2 = _
    rw [deletePhase_muts, hfilS]
    rfl
  · rfl
  · show getByKey (deletePhase tmpl.nspace tmpl.name
        ((desiredTerraforms tmpl src (withoutPR pr prs)).map keyOf)
        (reconcile tmpl src prs store).store.terraforms).1 _ = none
    rw [deletePhase_getByKey hwf1.1, hlkT]
    simp [hpxT]
  · show getByKey (deletePhase tmpl.nspace src.name
        ((desiredSources tmpl src (withoutPR pr prs)).map keyOf)
        (reconcile tmpl src prs store).store.gitRepos).1 _ = none
    rw [deletePhase_getByKey hwf1.2, hlkS]
    simp [hpxS]

end Polling

namespace Polling

/-- The three open pull requests of the test fixtures. -/
def prsFix : List PullRequest := [prFix1, prFix2, prFix3]

/-- A pull request targeting a branch other than the tracked one. -/
def prOther : PullRequest :=
  { repository := repoFix, number := 7, baseBranch := "develop",
    headBranch := "feature-x" }

/-- Witness for C1 at the test fixtures. -/
theorem reconcile_completeness_witness :
    (storeFix.wf ∧ ((keptPRs srcFix prsFix).map branchId).Nodup ∧
        prFix1 ∈ prsFix ∧ prFix1.baseBranch = srcFix.spec.reference.branch ∧
        (reconcile tmplFix srcFix prsFix storeFix).errors = []) ∧
      ((reconcile tmplFix srcFix prsFix storeFix).store.terraforms.filter
          (fun o => decide (keyOf o =
            (tmplFix.nspace, tmplFix.name ++ "-" ++ branchId prFix1)))).length
          = 1 ∧
        ((reconcile tmplFix srcFix prsFix storeFix).store.gitRepos.filter
          (fun o => decide (keyOf o =
            (tmplFix.nspace, srcFix.name ++ "-" ++ branchId prFix1)))).length
          = 1 :=
  ⟨⟨⟨by decide, by decide⟩, by decide, by decide, by decide, by decide⟩,
    reconcile_completeness ⟨by decide, by decide⟩ (by decide) (by decide)
      (by decide) (by decide)⟩

/-- Witness for C2 at the test fixtures. -/
theorem reconcile_derived_spec_witness :
    (storeFix.wf ∧ ((keptPRs srcFix prsFix).map branchId).Nodup ∧
        prFix1 ∈ prsFix ∧ prFix1.baseBranch = srcFix.spec.reference.branch ∧
        (reconcile tmplFix srcFix prsFix storeFix).errors = []) ∧
      ((derivedTerraform tmplFix srcFix prFix1).spec =
          { sourceRef := { kind := tmplFix.spec.sourceRef.kind
                           name := srcFix.name ++ "-" ++ branchId prFix1
                           nspace := tmplFix.nspace }
            planOnly := true
            storeReadablePlan := "human"
            writeOutputsToSecret := tmplFix.spec.writeOutputsToSecret.map
              (fun w => { name := w.name ++ "-" ++ branchId prFix1 })
            passThrough := tmplFix.spec.passThrough } ∧
        (derivedTerraform tmplFix srcFix prFix1).labels =
          derivedLabels tmplFix.labels prFix1) :=
  ⟨⟨⟨by decide, by decide⟩, by decide, by decide, by decide, by decide⟩,
    @reconcile_derived_spec tmplFix srcFix prsFix storeFix
      ⟨by decide, by decide⟩ (by decide) prFix1 (by decide) (by decide)
      (by decide) (derivedTerraform tmplFix srcFix prFix1) (by decide)⟩

/-- Witness for C3 at the test fixtures. -/
theorem reconcile_idempotent_witness :
    (storeFix.wf ∧ ((keptPRs srcFix prsFix).map branchId).Nodup ∧
        (reconcile tmplFix srcFix prsFix storeFix).errors = []) ∧
      reconcile tmplFix srcFix prsFix
          (reconcile tmplFix srcFix prsFix storeFix).store =
        { store := (reconcile tmplFix srcFix prsFix storeFix).store
          tfMuts := [], srcMuts := [], errors := [] } :=
  ⟨⟨⟨by decide, by decide⟩, by decide, by decide⟩,
    reconcile_idempotent ⟨by decide, by decide⟩ (by decide) (by decide)⟩

/-- Witness for C4 at the test fixtures. -/
theorem reconcile_retention_witness :
    storeFix.wf ∧
      getByKey (reconcile tmplFix srcFix prsFix storeFix).store.terraforms
          (keyOf tmplFix) = getByKey storeFix.terraforms (keyOf tmplFix) ∧
        getByKey (reconcile tmplFix srcFix prsFix storeFix).store.gitRepos
          (keyOf srcFix) = getByKey storeFix.gitRepos (keyOf srcFix) :=
  ⟨⟨by decide, by decide⟩,
    (@reconcile_retention tmplFix srcFix prsFix storeFix
      ⟨by decide, by decide⟩).1,
    (@reconcile_retention tmplFix srcFix prsFix storeFix
      ⟨by decide, by decide⟩).2.1⟩

/-- Witness for C5 at the test fixtures: pull request 1 closes. -/
theorem reconcile_orphan_cleanup_witness :
    (storeFix.wf ∧ ((keptPRs srcFix prsFix).map branchId).Nodup ∧
        (reconcile tmplFix srcFix prsFix storeFix).errors = [] ∧
        prFix1 ∈ prsFix ∧ prFix1.baseBranch = srcFix.spec.reference.branch) ∧
      (reconcile tmplFix srcFix (withoutPR prFix1 prsFix)
          (reconcile tmplFix srcFix prsFix storeFix).store).tfMuts =
        [Op.delete (tmplFix.nspace, tmplFix.name ++ "-" ++ branchId prFix1)] ∧
      (reconcile tmplFix srcFix (withoutPR prFix1 prsFix)
          (reconcile tmplFix srcFix prsFix storeFix).store).srcMuts =
        [Op.delete (tmplFix.nspace, srcFix.name ++ "-" ++ branchId prFix1)] ∧
      (reconcile tmplFix srcFix (withoutPR prFix1 prsFix)
          (reconcile tmplFix srcFix prsFix storeFix).store).errors = [] ∧
      getByKey (reconcile tmplFix srcFix (withoutPR prFix1 prsFix)
            (reconcile tmplFix srcFix prsFix storeFix).store).store.terraforms
          (tmplFix.nspace, tmplFix.name ++ "-" ++ branchId prFix1) = none ∧
      getByKey (reconcile tmplFix srcFix (withoutPR prFix1 prsFix)
            (reconcile tmplFix srcFix prsFix storeFix).store).store.gitRepos
          (tmplFix.nspace, srcFix.name ++ "-" ++ branchId prFix1) = none :=
  ⟨⟨⟨by decide, by decide⟩, by decide, by decide, by decide, by decide⟩,
    reconcile_orphan_cleanup ⟨by decide, by decide⟩ (by decide) (by decide)
      (by decide) (by decide)⟩

/-- Witness for C6 at a fixture whose only request targets another branch. -/
theorem reconcile_no_match_witness :
    keptPRs srcFix [prOther] = [] ∧
      reconcile tmplFix srcFix [prOther]
          { terraforms := [tmplFix], gitRepos := [srcFix] } =
        { store := { terraforms := [tmplFix], gitRepos := [srcFix] }
          tfMuts := [], srcMuts := [], errors := [] } :=
  reconcile_no_match tmplFix srcFix [prOther] (by decide) (by decide)
    (by decide)

/-- Witness for the amended C7 at the test fixtures. -/
theorem reconcile_derived_labels_witness :
    (storeFix.wf ∧ ((keptPRs srcFix prsFix).map branchId).Nodup ∧
        prFix3 ∈ prsFix ∧ prFix3.baseBranch = srcFix.spec.reference.branch ∧
        (reconcile tmplFix srcFix prsFix storeFix).errors = []) ∧
      (derivedTerraform tmplFix srcFix prFix3).labels =
        derivedLabels tmplFix.labels prFix3 ∧
      (derivedSource tmplFix srcFix prFix3).labels =
        derivedLabels srcFix.labels prFix3 :=
  ⟨⟨⟨by decide, by decide⟩, by decide, by decide, by decide, by decide⟩,
    (@reconcile_derived_labels tmplFix srcFix prsFix storeFix
        ⟨by decide, by decide⟩ (by decide) prFix3 (by decide) (by decide)
        (by decide)).1 (derivedTerraform tmplFix srcFix prFix3) (by decide),
    (@reconcile_derived_labels tmplFix srcFix prsFix storeFix
        ⟨by decide, by decide⟩ (by decide) prFix3 (by decide) (by decide)
        (by decide)).2 (derivedSource tmplFix srcFix prFix3) (by decide)⟩

end Polling
